import Mathlib

/-!
Verification development for the single-case-design graph application.

The repository has two entry points: an interactive configurator
(`scd_app.py`) and a fixed A-B example generator (`ab_graph.py`).  The
definitions below are a shallow embedding of the pure computational parts
of both scripts: series parsing, phase layout (lengths and start offsets),
the plotting loop's bookkeeping (series x-ranges, colors, phase titles,
boundary lines, stair-step annotations, running x-extent), and the x-axis
limit computation.  Numeric data is modelled with `PyFloat` (exact
rationals plus infinities and nan) instead of IEEE floats; all x
coordinates computed by the scripts are integers or half-integers, so ℚ
represents them exactly.
-/

namespace SCD

/-- Model of a Python float value as produced by `float(str)`: a finite
value (kept exact as a rational), a signed infinity, or nan.  The scripts
use `np.nan` as the missing-data marker, which is the same value as
`float("nan")`. -/
inductive PyFloat where
  | finite (val : ℚ)
  | inf (neg : Bool)
  | nan
deriving DecidableEq

/-- ASCII whitespace recognized by Python's `str.strip` and the regex
class `\s` (space, tab, newline, carriage return, vertical tab, form
feed).  The inputs of interest are ASCII. -/
def isPySpace (c : Char) : Bool :=
  c = ' ' || c = '\t' || c = '\n' || c = '\r' || c = '\x0b' || c = '\x0c'

/-- A character matched by the separator class `[,\s]` of
`re.split(r"[,\s]+", ...)` in `parse_series`. -/
def isSep (c : Char) : Bool := c = ',' || isPySpace c

/-- `str.strip()` on the character list: drop whitespace from both ends. -/
def stripChars (cs : List Char) : List Char :=
  ((cs.dropWhile isPySpace).reverse.dropWhile isPySpace).reverse

/-- `s.strip()`. -/
def pyStrip (s : String) : String := ⟨stripChars s.data⟩

/-- `s.lower()` (ASCII case folding, which matches the tokens involved). -/
def pyLower (s : String) : String := ⟨s.data.map Char.toLower⟩

mutual
/-- Accumulating worker for `re.split(r"[,\s]+", s)`: reading characters
of a token (current token prefix reversed in `cur`). -/
def splitTok : List Char → List Char → List (List Char)
  | [], cur => [cur.reverse]
  | c :: rest, cur =>
    if isSep c then cur.reverse :: splitSep rest
    else splitTok rest (c :: cur)

/-- Accumulating worker for `re.split(r"[,\s]+", s)`: inside a maximal
run of separator characters. -/
def splitSep : List Char → List (List Char)
  | [] => [[]]
  | c :: rest => if isSep c then splitSep rest else splitTok rest [c]
end

/-- `re.split(r"[,\s]+", s)`: split at maximal runs of commas and
whitespace; a leading (resp. trailing) separator run contributes an empty
token at the front (resp. back), and splitting the empty string yields
one empty token. -/
def reSplit (s : String) : List String := (splitTok s.data []).map fun cs => ⟨cs⟩

/-- Numeric value of a list of decimal digit characters. -/
def natVal (ds : List Char) : Nat := ds.foldl (fun n c => n * 10 + (c.toNat - 48)) 0

/-- Digit-run continuation of Python's float grammar `digitpart`
(`digit (("_")? digit)*`): consume further digits, allowing a single
underscore between digits; anything else (including a dangling
underscore) is left unconsumed. -/
def digitRun : List Char → List Char → List Char × List Char
  | [], acc => (acc.reverse, [])
  | '_' :: d :: rest, acc =>
    if d.isDigit then digitRun rest (d :: acc) else (acc.reverse, '_' :: d :: rest)
  | ['_'], acc => (acc.reverse, ['_'])
  | c :: rest, acc =>
    if c.isDigit then digitRun rest (c :: acc) else (acc.reverse, c :: rest)

/-- `digitpart` of Python's float grammar: at least one digit, then
`digitRun`.  Returns the digits (underscores removed) and the rest. -/
def digitPart : List Char → Option (List Char × List Char)
  | c :: rest => if c.isDigit then some (digitRun rest [c]) else none
  | [] => none

/-- Optional sign; returns (isNegative, rest). -/
def parseSign : List Char → Bool × List Char
  | '+' :: r => (false, r)
  | '-' :: r => (true, r)
  | r => (false, r)

/-- Mantissa of Python's float grammar: `digitpart ["." [digitpart]]` or
`"." digitpart`.  Returns (integer digits, fraction digits, rest). -/
def parseMantissa (cs : List Char) : Option (List Char × List Char × List Char) :=
  match digitPart cs with
  | some (ds, rest) =>
    match rest with
    | '.' :: rest2 =>
      match digitPart rest2 with
      | some (fs, rest3) => some (ds, fs, rest3)
      | none => some (ds, [], rest2)
    | _ => some (ds, [], rest)
  | none =>
    match cs with
    | '.' :: rest2 =>
      match digitPart rest2 with
      | some (fs, rest3) => some ([], fs, rest3)
      | none => none
    | _ => none

/-- Exponent part `("e") [sign] digitpart` of Python's float grammar (the
callers pass lowercased tokens, so only lowercase `e` occurs). -/
def parseExp (cs : List Char) : Option (Int × List Char) :=
  match cs with
  | 'e' :: rest =>
    match parseSign rest with
    | (neg, r2) =>
      match digitPart r2 with
      | some (ds, r3) =>
        some (if neg then -(natVal ds : Int) else (natVal ds : Int), r3)
      | none => none
  | _ => none

/-- Exact value of a parsed float literal: sign, integer digits, fraction
digits and decimal exponent. -/
def pyFloatVal (neg : Bool) (ip fp : List Char) (e : Int) : ℚ :=
  let v : ℚ := (natVal (ip ++ fp) : ℚ) * (10 : ℚ) ^ (e - (fp.length : Int))
  if neg then -v else v

/-- Model of Python's `float(s)` on the (already lowercased) tokens the
app passes to it: optional sign, then `inf`/`infinity`/`nan` or a decimal
literal with optional fraction and exponent; surrounding whitespace is
stripped; any leftover characters make the conversion fail (`none`). -/
def pyFloat (s : String) : Option PyFloat :=
  match parseSign (stripChars s.data) with
  | (neg, r) =>
    if r = "inf".data ∨ r = "infinity".data then some (.inf neg)
    else if r = "nan".data then some .nan
    else
      match parseMantissa r with
      | some (ip, fp, r2) =>
        match parseExp r2 with
        | some (e, r3) =>
          if r3 = [] then some (.finite (pyFloatVal neg ip fp e)) else none
        | none =>
          if r2 = [] then some (.finite (pyFloatVal neg ip fp 0)) else none
      | none => none

/-- The per-token loop body of `parse_series` (scd_app.py lines 22-33):
missing markers append `np.nan`; other tokens go through `float`; a
failing token aborts with an error naming that token (the model records
the offending token where the script calls `st.error`) and the function
returns the empty list. -/
def parseLoop : List String → List PyFloat → List PyFloat × Option String
  | [], out => (out.reverse, none)
  | t :: rest, out =>
    if pyLower (pyStrip t) = "" ∨ pyLower (pyStrip t) = "x" ∨
       pyLower (pyStrip t) = "-" ∨ pyLower (pyStrip t) = "na" then
      parseLoop rest (PyFloat.nan :: out)
    else
      match pyFloat (pyLower (pyStrip t)) with
      | some v => parseLoop rest (v :: out)
      | none => ([], some t)

/-- `parse_series` (scd_app.py lines 17-33).  Returns the parsed list
together with the reported error token, if any (`none` on success). -/
def parse_series (s : String) : List PyFloat × Option String :=
  if s = "" then ([], none)
  else parseLoop (reSplit (pyStrip s)) []

/-- Specification-level value of a single token, following the spec's
words: the markers `""`, `"x"`, `"-"`, `"na"` (case-insensitively) map to
the missing marker, any other token to its floating-point value (or fails). -/
def token_value (t : String) : Option PyFloat :=
  if pyLower (pyStrip t) = "" ∨ pyLower (pyStrip t) = "x" ∨
     pyLower (pyStrip t) = "-" ∨ pyLower (pyStrip t) = "na" then
    some PyFloat.nan
  else pyFloat (pyLower (pyStrip t))

/-- Specification-level value of a token list: every token must have a
value, otherwise the whole list fails. -/
def tokensValue : List String → Option (List PyFloat)
  | [] => some []
  | t :: rest =>
    match token_value t with
    | some v =>
      match tokensValue rest with
      | some m => some (v :: m)
      | none => none
    | none => none

/-- Specification-level parser, following the spec's words: empty input
is the empty series; otherwise tokenize (after stripping) and map every
token to its value, rejecting the whole input if any token fails. -/
def spec_parse (s : String) : Option (List PyFloat) :=
  if s = "" then some [] else tokensValue (reSplit (pyStrip s))


/-- A measure: a name and its parsed data series (`phase_measures` stores
per phase a list of `(measure_name, data_list)` pairs). -/
structure Measure where
  name : String
  values : List PyFloat
deriving DecidableEq

/-- Length of one phase (scd_app.py lines 123-125):
`max((len(m[1]) for m in measures if m[1]), default=0)` — the maximum
data length over the measures with non-empty data, and 0 when there are
none. -/
def phase_length (measures : List Measure) : Nat :=
  ((measures.filter fun m => !m.values.isEmpty).map fun m => m.values.length).foldr max 0

/-- The spec formula for a phase length: the maximum of `len(values)`
over all its measures, or 0 if it has no measures. -/
def length_spec (measures : List Measure) : Nat :=
  (measures.map fun m => m.values.length).foldr max 0

/-- `phase_lengths` (scd_app.py lines 122-125). -/
def phase_lengths (pm : List (List Measure)) : List Nat := pm.map phase_length

/-- Worker for `phase_starts` (scd_app.py lines 127-131): the loop
`for L in phase_lengths: phase_starts.append(cx); cx += L` with running
cursor `cx`. -/
def phase_starts_from (cx : Nat) : List Nat → List Nat
  | [] => []
  | L :: rest => cx :: phase_starts_from (cx + L) rest

/-- `phase_starts` (scd_app.py lines 127-131): cursor starts at 1. -/
def phase_starts (lengths : List Nat) : List Nat := phase_starts_from 1 lengths

/-- The color mode radio selection (scd_app.py line 83). -/
inductive ColorMode where
  | Color
  | Grayscale
  | Custom
deriving DecidableEq

/-- `default_colors` (scd_app.py line 110). -/
def default_colors : List String :=
  ["#1f77b4", "#ff7f0e", "#2ca02c", "#d62728", "#9467bd", "#8c564b"]

/-- `grayscale_colors` (scd_app.py line 111). -/
def grayscale_colors : List String :=
  ["#000000", "#555555", "#888888", "#AAAAAA", "#CCCCCC", "#EEEEEE"]

/-- `markers` (scd_app.py line 112). -/
def markers : List String := ["o", "s", "D", "^", "v", "P"]

/-- The configuration fields of the interactive app that the modelled
computations read (color options, phase-title toggle, multiple-baseline
stair-step options, and the optional fixed maximum x). -/
structure GraphConfig where
  color_mode : ColorMode
  custom_colors : List String
  show_phase_titles : Bool
  is_multiple_baseline : Bool
  extend_phase_lines : Bool
  stair_step_length : ℚ
  use_max_x : Bool
  fixed_max_x : Option ℚ
deriving DecidableEq

/-- Palette selection (scd_app.py lines 114-119): grayscale list in
grayscale mode; the custom list in custom mode when it is non-empty;
otherwise the default color list. -/
def palette (cfg : GraphConfig) : List String :=
  if cfg.color_mode = ColorMode.Grayscale then grayscale_colors
  else if cfg.color_mode = ColorMode.Custom ∧ cfg.custom_colors ≠ [] then cfg.custom_colors
  else default_colors

/-- One `ax.plot` call of the measure loop (scd_app.py lines 143-156):
the series' starting x, number of points, assigned color and marker, and
the data values. -/
structure PlotSeries where
  name : String
  start_x : Nat
  len : Nat
  color : String
  marker : String
  values : List PyFloat
deriving DecidableEq

/-- The x-coordinates `np.arange(start_x, start_x + len(data))` of a
plotted series. -/
def PlotSeries.x_vals (s : PlotSeries) : List Nat :=
  (List.range s.len).map fun k => k + s.start_x

/-- Everything the plotting loop draws or computes that the claims talk
about: the plotted series, the phase titles drawn (with their x), the
boundary-line x-coordinates, the stair-step horizontal segments (start
and end x), and the final running x-extent `plotted_xmax`. -/
structure RenderResult where
  series : List PlotSeries
  titles : List (Nat × String)
  boundaries : List ℚ
  stairs : List (ℚ × ℚ)
  plotted_xmax : ℚ
deriving DecidableEq

/-- The inner measure loop (scd_app.py lines 143-158): skip measures with
empty data; otherwise plot at `palette[color_index % len(palette)]`,
marker `markers[(idx + j) % len(markers)]`, advance `color_index`, and
update `plotted_xmax` with `x_vals[-1] + 0.5`.  Returns the produced
series, the final `color_index` and the updated `plotted_xmax`. -/
def measuresLoop (pal : List String) (st idx : Nat) :
    Nat → Nat → ℚ → List Measure → List PlotSeries × Nat × ℚ
  | _, ci, xm, [] => ([], ci, xm)
  | j, ci, xm, m :: rest =>
    if m.values.isEmpty then measuresLoop pal st idx (j + 1) ci xm rest
    else
      let r := measuresLoop pal st idx (j + 1) (ci + 1)
        (max xm ((st : ℚ) + (m.values.length : ℚ) - 1/2)) rest
      (⟨m.name, st, m.values.length,
        (pal[ci % pal.length]?).getD "",
        (markers[(idx + j) % markers.length]?).getD "",
        m.values⟩ :: r.1, r.2.1, r.2.2)

/-- The outer phase loop (scd_app.py lines 137-187): for each phase (in
`zip(phase_titles, phase_measures)` order) plot its measures, draw the
phase title when enabled and the phase is non-empty, draw the boundary
line at `start_x + L - 0.5` when the phase is not the last one and
`L > 0`, and, when multiple-baseline stair-step mode is active with a
positive length, record the stair segment and extend `plotted_xmax`. -/
def renderLoop (pal : List String) (showPT mb ext : Bool) (ss : ℚ) (ntitles : Nat)
    (starts lengths : List Nat) :
    Nat → Nat → ℚ → List (String × List Measure) → RenderResult
  | _, _, xm, [] => ⟨[], [], [], [], xm⟩
  | idx, ci, xm, (pt, ms) :: rest =>
    let st := (starts[idx]?).getD 0
    let L := (lengths[idx]?).getD 0
    let mres := measuresLoop pal st idx 0 ci xm ms
    let tl : List (Nat × String) := if showPT ∧ 0 < L then [(st, pt)] else []
    if idx < ntitles - 1 ∧ 0 < L then
      let xline : ℚ := (st : ℚ) + (L : ℚ) - 1/2
      if mb ∧ ext ∧ 0 < ss then
        let r := renderLoop pal showPT mb ext ss ntitles starts lengths
          (idx + 1) mres.2.1 (max mres.2.2 (xline + ss + 1/2)) rest
        ⟨mres.1 ++ r.series, tl ++ r.titles, xline :: r.boundaries,
          (xline, xline + ss) :: r.stairs, r.plotted_xmax⟩
      else
        let r := renderLoop pal showPT mb ext ss ntitles starts lengths
          (idx + 1) mres.2.1 mres.2.2 rest
        ⟨mres.1 ++ r.series, tl ++ r.titles, xline :: r.boundaries,
          r.stairs, r.plotted_xmax⟩
    else
      let r := renderLoop pal showPT mb ext ss ntitles starts lengths
        (idx + 1) mres.2.1 mres.2.2 rest
      ⟨mres.1 ++ r.series, tl ++ r.titles, r.boundaries, r.stairs, r.plotted_xmax⟩

/-- The full plotting pass (scd_app.py lines 103-187): precompute the
palette, the phase lengths and the phase starts, then run the phase loop
with `color_index = 0` and `plotted_xmax = 0.5`. -/
def render (titles : List String) (pm : List (List Measure)) (cfg : GraphConfig) :
    RenderResult :=
  renderLoop (palette cfg) cfg.show_phase_titles cfg.is_multiple_baseline
    cfg.extend_phase_lines cfg.stair_step_length titles.length
    (phase_starts (phase_lengths pm)) (phase_lengths pm)
    0 0 (1/2) (titles.zip pm)

/-- The x-axis upper limit (scd_app.py lines 209-213):
`max(fixed_max_x + 0.5, plotted_xmax)` when a fixed maximum is in use,
else `max(plotted_xmax, 2.5)`. -/
def xlim_upper (cfg : GraphConfig) (pxmax : ℚ) : ℚ :=
  if cfg.use_max_x then
    match cfg.fixed_max_x with
    | some fx => max (fx + 1/2) pxmax
    | none => max pxmax (5/2)
  else max pxmax (5/2)

/-- Closed form of the boundary lines the phase loop draws, starting at
phase index `idx`: one line per remaining phase that is not the last
phase (`idx < ntitles - 1`) and has positive length, at
`start_x + L - 0.5`. -/
def boundary_spec (ntitles : Nat) (starts lengths : List Nat) :
    Nat → List (String × List Measure) → List ℚ
  | _, [] => []
  | idx, _ :: rest =>
    (if idx < ntitles - 1 ∧ 0 < (lengths[idx]?).getD 0 then
      [(((starts[idx]?).getD 0 : ℚ)) + (((lengths[idx]?).getD 0 : ℚ)) - 1/2]
    else []) ++ boundary_spec ntitles starts lengths (idx + 1) rest

/-- Closed form of the phase titles the phase loop draws, starting at
phase index `idx`: one per remaining phase with positive length, when the
phase-title toggle is on, placed at the phase's start x. -/
def title_spec (showPT : Bool) (starts lengths : List Nat) :
    Nat → List (String × List Measure) → List (Nat × String)
  | _, [] => []
  | idx, (pt, _) :: rest =>
    (if showPT ∧ 0 < (lengths[idx]?).getD 0 then [((starts[idx]?).getD 0, pt)] else [])
      ++ title_spec showPT starts lengths (idx + 1) rest

/-- The colors a cycling counter starting at `ci` hands to the next `n`
plotted series: `pal[ci % len pal]`, `pal[(ci+1) % len pal]`, ... -/
def colorsFrom (pal : List String) : Nat → Nat → List String
  | _, 0 => []
  | ci, n + 1 => (pal[ci % pal.length]?).getD "" :: colorsFrom pal (ci + 1) n

/-- Number of measures of one phase that actually get plotted (non-empty
data). -/
def plotted_count (ms : List Measure) : Nat :=
  (ms.filter fun m => !m.values.isEmpty).length

/-- Total number of plotted measures over the zipped phase list, in plot
order. -/
def total_plotted (zs : List (String × List Measure)) : Nat :=
  (zs.map fun z => plotted_count z.2).sum

namespace ABGraph

/-- Hardcoded baseline data of ab_graph.py (line 25). -/
def baseline : List ℚ := [40, 42, 39, 41, 43]

/-- Hardcoded intervention data of ab_graph.py (line 26). -/
def intervention : List ℚ := [55, 60, 65, 68, 70, 74]

/-- `nA = len(baseline)` (ab_graph.py line 39). -/
def nA : Nat := baseline.length

/-- `nB = len(intervention)` (ab_graph.py line 40). -/
def nB : Nat := intervention.length

/-- `x_A = np.arange(1, nA + 1)` (ab_graph.py line 41). -/
def x_A : List Nat := (List.range nA).map fun k => k + 1

/-- `x_B = np.arange(nA + 1, nA + nB + 1)` (ab_graph.py line 42). -/
def x_B : List Nat := (List.range nB).map fun k => k + (nA + 1)

/-- `phase_boundary = nA + 0.5` (ab_graph.py line 56). -/
def phase_boundary : ℚ := (nA : ℚ) + 1/2

/-- `total_points = nA + nB` (ab_graph.py line 71). -/
def total_points : Nat := nA + nB

end ABGraph

/-! ## Parsing lemmas -/

/-- Sanity checks of the tokenizer and the float model on concrete
inputs. -/
example : reSplit "10, 20, x, 30" = ["10", "20", "x", "30"] := by decide
example : reSplit "" = [""] := by decide
example : pyFloat "1.5e2" = some (.finite 150) := by with_unfolding_all rfl
example : pyFloat "-.5" = some (.finite (-(1/2))) := by with_unfolding_all rfl
example : pyFloat "1_0" = some (.finite 10) := by with_unfolding_all rfl
example : pyFloat "1_" = none := by with_unfolding_all rfl
example : pyFloat "nan" = some .nan := by with_unfolding_all rfl
example : pyFloat "inf" = some (.inf false) := by with_unfolding_all rfl
example : pyFloat "abc" = none := by with_unfolding_all rfl

/-- When every token has a value, the early-return loop of `parse_series`
returns exactly the accumulated prefix followed by those values, with no
error. -/
lemma parseLoop_of_tokensValue_some :
    ∀ (ts : List String) (acc m : List PyFloat),
      tokensValue ts = some m → parseLoop ts acc = (acc.reverse ++ m, none) := by
  intro ts
  induction ts with
  | nil =>
    intro acc m h
    simp only [tokensValue, Option.some.injEq] at h
    subst h
    simp [parseLoop]
  | cons t rest ih =>
    intro acc m h
    simp only [tokensValue] at h
    cases hv : token_value t with
    | none => rw [hv] at h; cases h
    | some v =>
      rw [hv] at h
      cases hr : tokensValue rest with
      | none => rw [hr] at h; cases h
      | some m2 =>
        rw [hr] at h
        cases h
        by_cases hm : pyLower (pyStrip t) = "" ∨ pyLower (pyStrip t) = "x" ∨
            pyLower (pyStrip t) = "-" ∨ pyLower (pyStrip t) = "na"
        · have hveq : v = PyFloat.nan := by
            simp [token_value, hm] at hv
            exact hv.symm
          subst hveq
          simp only [parseLoop, if_pos hm]
          rw [ih (PyFloat.nan :: acc) m2 hr]
          simp
        · have hp : pyFloat (pyLower (pyStrip t)) = some v := by
            simpa [token_value, hm] using hv
          simp only [parseLoop, if_neg hm, hp]
          rw [ih (v :: acc) m2 hr]
          simp

/-- When some token has no value, the loop aborts: it returns the empty
list together with the first offending token, regardless of what was
already accumulated. -/
lemma parseLoop_of_tokensValue_none :
    ∀ (ts : List String) (acc : List PyFloat),
      tokensValue ts = none →
      ∃ t, (ts.find? fun u => (token_value u).isNone) = some t ∧
        parseLoop ts acc = ([], some t) := by
  intro ts
  induction ts with
  | nil => intro acc h; simp [tokensValue] at h
  | cons t rest ih =>
    intro acc h
    cases hv : token_value t with
    | none =>
      have hm : ¬ (pyLower (pyStrip t) = "" ∨ pyLower (pyStrip t) = "x" ∨
          pyLower (pyStrip t) = "-" ∨ pyLower (pyStrip t) = "na") := by
        intro hm
        simp [token_value, hm] at hv
      have hp : pyFloat (pyLower (pyStrip t)) = none := by
        simpa [token_value, hm] using hv
      refine ⟨t, ?_, ?_⟩
      · simp [List.find?_cons, hv]
      · simp only [parseLoop, if_neg hm, hp]
    | some v =>
      have hrest : tokensValue rest = none := by
        simp only [tokensValue] at h
        rw [hv] at h
        cases hr : tokensValue rest with
        | none => rfl
        | some m2 => rw [hr] at h; cases h
      have hpt : (token_value t).isNone = false := by rw [hv]; rfl
      by_cases hm : pyLower (pyStrip t) = "" ∨ pyLower (pyStrip t) = "x" ∨
          pyLower (pyStrip t) = "-" ∨ pyLower (pyStrip t) = "na"
      · obtain ⟨u, hfind, hloop⟩ := ih (PyFloat.nan :: acc) hrest
        refine ⟨u, ?_, ?_⟩
        · simp [List.find?_cons, hpt, hfind]
        · simp only [parseLoop, if_pos hm]
          exact hloop
      · have hp : pyFloat (pyLower (pyStrip t)) = some v := by
          simpa [token_value, hm] using hv
        obtain ⟨u, hfind, hloop⟩ := ih (v :: acc) hrest
        refine ⟨u, ?_, ?_⟩
        · simp [List.find?_cons, hpt, hfind]
        · simp only [parseLoop, if_neg hm, hp]
          exact hloop

/-- A token with no value anywhere in the list makes the whole
specification-level parse fail. -/
lemma tokensValue_eq_none_of_mem :
    ∀ (ts : List String) (t : String), t ∈ ts → token_value t = none →
      tokensValue ts = none := by
  intro ts
  induction ts with
  | nil => intro t ht _; cases ht
  | cons u rest ih =>
    intro t ht hnone
    rcases List.mem_cons.mp ht with rfl | hmem
    · simp only [tokensValue, hnone]
    · simp only [tokensValue]
      cases hv : token_value u with
      | none => rfl
      | some v => rw [ih t hmem hnone]

/-! ## Claim theorems: series parsing -/

/-- C2: series parsing success path.  `parse_series` succeeds exactly
when the specification-level parser (tokenize by collapsing runs of
commas and whitespace, map markers to the missing value and all other
tokens through float conversion) succeeds, with the same series; the
empty input yields the empty series, and the spec's worked example and
further separator/case variants evaluate as stated. -/
theorem parse_series_success_spec :
    (∀ s l, parse_series s = (l, none) ↔ spec_parse s = some l) ∧
    parse_series "" = ([], none) ∧
    parse_series "10, 20, x, 30" =
      ([PyFloat.finite 10, PyFloat.finite 20, PyFloat.nan, PyFloat.finite 30], none) ∧
    parse_series "7,,  8" = ([PyFloat.finite 7, PyFloat.finite 8], none) ∧
    parse_series "X NA -" = ([PyFloat.nan, PyFloat.nan, PyFloat.nan], none) := by
  refine ⟨?_, by with_unfolding_all rfl, by with_unfolding_all rfl,
    by with_unfolding_all rfl, by with_unfolding_all rfl⟩
  intro s l
  constructor
  · intro h
    by_cases hs : s = ""
    · subst hs
      have he : parse_series "" = (([] : List PyFloat), none) := rfl
      rw [he] at h
      injection h with h1 h2
      subst h1
      rfl
    · unfold parse_series at h
      rw [if_neg hs] at h
      unfold spec_parse
      rw [if_neg hs]
      cases htv : tokensValue (reSplit (pyStrip s)) with
      | none =>
        obtain ⟨u, _, hloop⟩ := parseLoop_of_tokensValue_none _ [] htv
        rw [hloop] at h
        cases h
      | some m =>
        have := parseLoop_of_tokensValue_some _ [] m htv
        rw [this] at h
        simp only [List.reverse_nil, List.nil_append, Prod.mk.injEq] at h
        rw [h.1]
  · intro h
    by_cases hs : s = ""
    · subst hs
      have he : spec_parse "" = some ([] : List PyFloat) := rfl
      rw [he] at h
      injection h with h1
      subst h1
      rfl
    · unfold spec_parse at h
      rw [if_neg hs] at h
      unfold parse_series
      rw [if_neg hs]
      have := parseLoop_of_tokensValue_some _ [] l h
      simpa using this

/-- C2 witness: the equivalence applied at a concrete input. -/
theorem parse_series_success_spec_witness :
    parse_series "2 4" = ([PyFloat.finite 2, PyFloat.finite 4], none) :=
  (parse_series_success_spec.1 "2 4" [PyFloat.finite 2, PyFloat.finite 4]).mpr
    (by with_unfolding_all rfl)

/-- C3: series parsing failure path.  If any token of the (stripped,
tokenized) input has no value — it is neither a missing marker nor a
valid float literal — then `parse_series` rejects the entire input: it
returns the empty series and reports the first such token (the model
records the token named in the `st.error` message); no partially parsed
numeric list is produced. -/
theorem parse_series_failure_spec :
    ∀ s t, ((reSplit (pyStrip s)).find? fun u => (token_value u).isNone) = some t →
      parse_series s = ([], some t) ∧ token_value t = none ∧
        t ∈ reSplit (pyStrip s) := by
  intro s t hfind
  have hnone : token_value t = none := by
    have := List.find?_some hfind
    exact Option.isNone_iff_eq_none.mp this
  have hmem : t ∈ reSplit (pyStrip s) := List.mem_of_find?_eq_some hfind
  refine ⟨?_, hnone, hmem⟩
  by_cases hs : s = ""
  · subst hs
    have : ((reSplit (pyStrip "")).find? fun u => (token_value u).isNone) = none := by
      with_unfolding_all rfl
    rw [this] at hfind
    cases hfind
  · unfold parse_series
    rw [if_neg hs]
    have htv : tokensValue (reSplit (pyStrip s)) = none :=
      tokensValue_eq_none_of_mem _ t hmem hnone
    obtain ⟨u, hfind2, hloop⟩ := parseLoop_of_tokensValue_none _ [] htv
    rw [hfind] at hfind2
    cases hfind2
    exact hloop

/-- C3 witness: the spec's worked failure example `"5 abc 7"`. -/
theorem parse_series_failure_spec_witness :
    parse_series "5 abc 7" = ([], some "abc") ∧ token_value "abc" = none ∧
      "abc" ∈ reSplit (pyStrip "5 abc 7") :=
  parse_series_failure_spec "5 abc 7" "abc" (by with_unfolding_all rfl)

/-- C10: parse edge cases around stripping and comma boundaries.  A
whitespace-only input is not empty input: it strips to the empty string,
which tokenizes to one empty token, i.e. one missing marker.  A leading
comma contributes an empty token (a missing marker) before the first
value, and the input consisting of a single comma yields two missing
markers (one for each side of the comma). -/
theorem parse_series_whitespace_edge :
    parse_series " " = ([PyFloat.nan], none) ∧
    parse_series ",5" = ([PyFloat.nan, PyFloat.finite 5], none) ∧
    parse_series "," = ([PyFloat.nan, PyFloat.nan], none) ∧
    parse_series "5," = ([PyFloat.finite 5, PyFloat.nan], none) := by
  refine ⟨by with_unfolding_all rfl, by with_unfolding_all rfl,
    by with_unfolding_all rfl, by with_unfolding_all rfl⟩

/-! ## Phase layout lemmas -/

/-- Filtering out measures with empty data before taking the maximum
length changes nothing: an empty series contributes length 0, which never
wins the maximum.  This bridges the code's filtered `max(..., default=0)`
and the spec's plain maximum over all measures. -/
lemma phase_length_eq_length_spec : ∀ ms : List Measure, phase_length ms = length_spec ms := by
  intro ms
  induction ms with
  | nil => rfl
  | cons m rest ih =>
    by_cases hm : m.values.isEmpty
    · have hnil : m.values = [] := by simpa using hm
      unfold phase_length length_spec at *
      simp [List.filter_cons, hm, hnil, ih]
    · unfold phase_length length_spec at *
      simp [List.filter_cons, hm, ih]

/-- `phase_starts_from` produces one start per phase length. -/
lemma phase_starts_from_length : ∀ (ls : List Nat) (cx : Nat),
    (phase_starts_from cx ls).length = ls.length := by
  intro ls
  induction ls with
  | nil => intro cx; rfl
  | cons L rest ih => intro cx; simp [phase_starts_from, ih]

/-- Closed form of the start cursor: the i-th start is the initial cursor
plus the sum of the preceding lengths. -/
lemma phase_starts_from_getElem :
    ∀ (ls : List Nat) (cx i : Nat), i < ls.length →
      (phase_starts_from cx ls)[i]? = some (cx + (ls.take i).sum) := by
  intro ls
  induction ls with
  | nil => intro cx i h; cases h
  | cons L rest ih =>
    intro cx i h
    cases i with
    | zero => simp [phase_starts_from]
    | succ n =>
      have hn : n < rest.length := by simpa using h
      simp only [phase_starts_from, List.getElem?_cons_succ]
      rw [ih (cx + L) n hn]
      simp [List.take_succ_cons, Nat.add_assoc]

/-- Sum of a one-longer prefix: add the next element. -/
lemma take_sum_succ : ∀ (ls : List Nat) (i : Nat), i < ls.length →
    (ls.take (i + 1)).sum = (ls.take i).sum + (ls[i]?).getD 0 := by
  intro ls
  induction ls with
  | nil => intro i h; cases h
  | cons L rest ih =>
    intro i h
    cases i with
    | zero => simp
    | succ n =>
      have hn : n < rest.length := by simpa using h
      simp only [List.take_succ_cons, List.sum_cons, List.getElem?_cons_succ]
      rw [ih n hn]
      omega

/-! ## Claim theorem: phase layout -/

/-- C1: phase layout.  A phase's length is the maximum of `len(values)`
over its measures (0 when there are no measures or all are empty); the
start of phase i is 1 plus the sum of the preceding lengths, hence the
first phase starts at 1 and each later start is the previous start plus
the previous length; in particular a zero-length phase does not advance
the start of the phase after it.  The fixed A-B script agrees: its second
phase (`x_B`) starts at `nA + 1`. -/
theorem phase_layout_spec :
    (∀ ms : List Measure, phase_length ms = length_spec ms) ∧
    (∀ ls : List Nat, (phase_starts ls).length = ls.length) ∧
    (∀ (ls : List Nat) (i : Nat), i < ls.length →
      (phase_starts ls)[i]? = some (1 + (ls.take i).sum)) ∧
    (∀ (ls : List Nat) (i : Nat), i + 1 < ls.length →
      (phase_starts ls)[i + 1]? =
        some (((phase_starts ls)[i]?).getD 0 + (ls[i]?).getD 0)) ∧
    (∀ (ls : List Nat) (i : Nat), i + 1 < ls.length → ls[i]? = some 0 →
      (phase_starts ls)[i + 1]? = (phase_starts ls)[i]?) ∧
    phase_starts [ABGraph.nA, ABGraph.nB] = [1, ABGraph.nA + 1] ∧
    ABGraph.x_B[0]? = some (ABGraph.nA + 1) := by
  have hstart : ∀ (ls : List Nat) (i : Nat), i < ls.length →
      (phase_starts ls)[i]? = some (1 + (ls.take i).sum) := by
    intro ls i h
    exact phase_starts_from_getElem ls 1 i h
  have hsucc : ∀ (ls : List Nat) (i : Nat), i + 1 < ls.length →
      (phase_starts ls)[i + 1]? =
        some (((phase_starts ls)[i]?).getD 0 + (ls[i]?).getD 0) := by
    intro ls i h
    have hi : i < ls.length := Nat.lt_of_succ_lt h
    rw [hstart ls (i + 1) h, hstart ls i hi, take_sum_succ ls i hi]
    simp [Nat.add_assoc]
  refine ⟨phase_length_eq_length_spec, fun ls => phase_starts_from_length ls 1,
    hstart, hsucc, ?_, by decide, by decide⟩
  intro ls i h hzero
  rw [hsucc ls i h, hstart ls i (Nat.lt_of_succ_lt h), hzero]
  simp

/-- C1 witness: the spec's worked layout example — phase lengths
`[5, 0, 3]`: the second start is the first start plus 5, and the
zero-length second phase does not advance the third start. -/
theorem phase_layout_spec_witness :
    (phase_starts [5, 0, 3])[1]? =
      some (((phase_starts [5, 0, 3])[0]?).getD 0 + (([5, 0, 3] : List Nat)[0]?).getD 0) ∧
    (phase_starts [5, 0, 3])[2]? = (phase_starts [5, 0, 3])[1]? ∧
    (phase_starts [5, 3])[1]? = some (1 + (([5, 3] : List Nat).take 1).sum) :=
  ⟨phase_layout_spec.2.2.2.1 [5, 0, 3] 0 (by decide),
   phase_layout_spec.2.2.2.2.1 [5, 0, 3] 1 (by decide) (by decide),
   phase_layout_spec.2.2.1 [5, 3] 1 (by decide)⟩

/-! ## Render loop lemmas -/

/-- The plotted series and the final color counter of the measure loop do
not depend on the incoming running x-extent (which only feeds the
`max` updates of `plotted_xmax`). -/
lemma measuresLoop_fst_xm_indep :
    ∀ (pal : List String) (st idx : Nat) (ms : List Measure) (j ci : Nat) (xm1 xm2 : ℚ),
      (measuresLoop pal st idx j ci xm1 ms).1 = (measuresLoop pal st idx j ci xm2 ms).1 ∧
      (measuresLoop pal st idx j ci xm1 ms).2.1 = (measuresLoop pal st idx j ci xm2 ms).2.1 := by
  intro pal st idx ms
  induction ms with
  | nil => intro j ci xm1 xm2; exact ⟨rfl, rfl⟩
  | cons m rest ih =>
    intro j ci xm1 xm2
    by_cases hm : m.values.isEmpty
    · simp only [measuresLoop, if_pos hm]
      exact ih (j + 1) ci xm1 xm2
    · simp only [measuresLoop, if_neg hm]
      obtain ⟨h1, h2⟩ := ih (j + 1) (ci + 1)
        (max xm1 ((st : ℚ) + (m.values.length : ℚ) - 1/2))
        (max xm2 ((st : ℚ) + (m.values.length : ℚ) - 1/2))
      exact ⟨by rw [h1], by rw [h2]⟩

/-- The series, phase titles and boundary lines produced by the phase
loop do not depend on the multiple-baseline flags, the stair-step length,
or the incoming running x-extent: those only influence the recorded
stair segments and `plotted_xmax`. -/
lemma renderLoop_layout_indep :
    ∀ (pal : List String) (showPT : Bool) (ntitles : Nat) (starts lengths : List Nat)
      (zs : List (String × List Measure)) (mb1 ext1 : Bool) (ss1 : ℚ)
      (mb2 ext2 : Bool) (ss2 : ℚ) (idx ci : Nat) (xm1 xm2 : ℚ),
      (renderLoop pal showPT mb1 ext1 ss1 ntitles starts lengths idx ci xm1 zs).series =
        (renderLoop pal showPT mb2 ext2 ss2 ntitles starts lengths idx ci xm2 zs).series ∧
      (renderLoop pal showPT mb1 ext1 ss1 ntitles starts lengths idx ci xm1 zs).titles =
        (renderLoop pal showPT mb2 ext2 ss2 ntitles starts lengths idx ci xm2 zs).titles ∧
      (renderLoop pal showPT mb1 ext1 ss1 ntitles starts lengths idx ci xm1 zs).boundaries =
        (renderLoop pal showPT mb2 ext2 ss2 ntitles starts lengths idx ci xm2 zs).boundaries := by
  intro pal showPT ntitles starts lengths zs
  induction zs with
  | nil => intro mb1 ext1 ss1 mb2 ext2 ss2 idx ci xm1 xm2; exact ⟨rfl, rfl, rfl⟩
  | cons z rest ih =>
    intro mb1 ext1 ss1 mb2 ext2 ss2 idx ci xm1 xm2
    obtain ⟨pt, ms⟩ := z
    obtain ⟨hser, hci⟩ :=
      measuresLoop_fst_xm_indep pal ((starts[idx]?).getD 0) idx ms 0 ci xm1 xm2
    by_cases hb : idx < ntitles - 1 ∧ 0 < (lengths[idx]?).getD 0
    · by_cases h1 : mb1 ∧ ext1 ∧ 0 < ss1 <;> by_cases h2 : mb2 ∧ ext2 ∧ 0 < ss2
      · simp only [renderLoop, if_pos hb, if_pos h1, if_pos h2]
        refine ⟨?_, ?_, ?_⟩
        · rw [hser, hci, (ih mb1 ext1 ss1 mb2 ext2 ss2 (idx + 1) _ _ _).1]
        · rw [hci, (ih mb1 ext1 ss1 mb2 ext2 ss2 (idx + 1) _ _ _).2.1]
        · rw [hci, (ih mb1 ext1 ss1 mb2 ext2 ss2 (idx + 1) _ _ _).2.2]
      · simp only [renderLoop, if_pos hb, if_pos h1, if_neg h2]
        refine ⟨?_, ?_, ?_⟩
        · rw [hser, hci, (ih mb1 ext1 ss1 mb2 ext2 ss2 (idx + 1) _ _ _).1]
        · rw [hci, (ih mb1 ext1 ss1 mb2 ext2 ss2 (idx + 1) _ _ _).2.1]
        · rw [hci, (ih mb1 ext1 ss1 mb2 ext2 ss2 (idx + 1) _ _ _).2.2]
      · simp only [renderLoop, if_pos hb, if_neg h1, if_pos h2]
        refine ⟨?_, ?_, ?_⟩
        · rw [hser, hci, (ih mb1 ext1 ss1 mb2 ext2 ss2 (idx + 1) _ _ _).1]
        · rw [hci, (ih mb1 ext1 ss1 mb2 ext2 ss2 (idx + 1) _ _ _).2.1]
        · rw [hci, (ih mb1 ext1 ss1 mb2 ext2 ss2 (idx + 1) _ _ _).2.2]
      · simp only [renderLoop, if_pos hb, if_neg h1, if_neg h2]
        refine ⟨?_, ?_, ?_⟩
        · rw [hser, hci, (ih mb1 ext1 ss1 mb2 ext2 ss2 (idx + 1) _ _ _).1]
        · rw [hci, (ih mb1 ext1 ss1 mb2 ext2 ss2 (idx + 1) _ _ _).2.1]
        · rw [hci, (ih mb1 ext1 ss1 mb2 ext2 ss2 (idx + 1) _ _ _).2.2]
    · simp only [renderLoop, if_neg hb]
      refine ⟨?_, ?_, ?_⟩
      · rw [hser, hci, (ih mb1 ext1 ss1 mb2 ext2 ss2 (idx + 1) _ _ _).1]
      · rw [hci, (ih mb1 ext1 ss1 mb2 ext2 ss2 (idx + 1) _ _ _).2.1]
      · rw [hci, (ih mb1 ext1 ss1 mb2 ext2 ss2 (idx + 1) _ _ _).2.2]

/-! ## Claim theorem: stair-step neutrality -/

/-- C8: the stair-step annotation is layout-neutral.  Two renders of the
same phases that differ only in the multiple-baseline flag, the
stair-step toggle and the extension length produce the same plotted
series (hence the same x-coordinates for every data point), the same
phase titles and the same boundary lines; the phase lengths and starts
are computed by `phase_lengths`/`phase_starts`, which do not read the
configuration at all. -/
theorem stair_step_layout_neutral :
    ∀ (titles : List String) (pm : List (List Measure)) (cfg : GraphConfig)
      (b e : Bool) (l : ℚ),
      (render titles pm { cfg with is_multiple_baseline := b, extend_phase_lines := e,
                                   stair_step_length := l }).series = (render titles pm cfg).series ∧
      ((render titles pm { cfg with is_multiple_baseline := b, extend_phase_lines := e,
                                    stair_step_length := l }).series.map PlotSeries.x_vals) =
        ((render titles pm cfg).series.map PlotSeries.x_vals) ∧
      (render titles pm { cfg with is_multiple_baseline := b, extend_phase_lines := e,
                                   stair_step_length := l }).titles = (render titles pm cfg).titles ∧
      (render titles pm { cfg with is_multiple_baseline := b, extend_phase_lines := e,
                                   stair_step_length := l }).boundaries = (render titles pm cfg).boundaries := by
  intro titles pm cfg b e l
  obtain ⟨hs, ht, hb⟩ := renderLoop_layout_indep (palette cfg) cfg.show_phase_titles
    titles.length (phase_starts (phase_lengths pm)) (phase_lengths pm) (titles.zip pm)
    b e l cfg.is_multiple_baseline cfg.extend_phase_lines cfg.stair_step_length
    0 0 (1/2) (1/2)
  exact ⟨hs, congrArg (List.map PlotSeries.x_vals) hs, ht, hb⟩

/-- The boundary lines drawn by the phase loop are exactly those of
`boundary_spec`: one for every phase that is not the last (by title
count) and has positive length, at `start + L - 0.5`. -/
lemma renderLoop_boundaries :
    ∀ (pal : List String) (showPT mb ext : Bool) (ss : ℚ) (ntitles : Nat)
      (starts lengths : List Nat) (zs : List (String × List Measure)) (idx ci : Nat) (xm : ℚ),
      (renderLoop pal showPT mb ext ss ntitles starts lengths idx ci xm zs).boundaries =
        boundary_spec ntitles starts lengths idx zs := by
  intro pal showPT mb ext ss ntitles starts lengths zs
  induction zs with
  | nil => intro idx ci xm; rfl
  | cons z rest ih =>
    intro idx ci xm
    obtain ⟨pt, ms⟩ := z
    by_cases hb : idx < ntitles - 1 ∧ 0 < (lengths[idx]?).getD 0
    · by_cases h1 : mb ∧ ext ∧ 0 < ss
      · simp only [renderLoop, if_pos hb, if_pos h1, boundary_spec, ih, List.singleton_append]
      · simp only [renderLoop, if_pos hb, if_neg h1, boundary_spec, ih, List.singleton_append]
    · simp only [renderLoop, if_neg hb, boundary_spec, ih, List.nil_append]

/-- The phase titles drawn by the phase loop are exactly those of
`title_spec`: when the toggle is on, one per phase of positive length at
the phase's start. -/
lemma renderLoop_titles :
    ∀ (pal : List String) (showPT mb ext : Bool) (ss : ℚ) (ntitles : Nat)
      (starts lengths : List Nat) (zs : List (String × List Measure)) (idx ci : Nat) (xm : ℚ),
      (renderLoop pal showPT mb ext ss ntitles starts lengths idx ci xm zs).titles =
        title_spec showPT starts lengths idx zs := by
  intro pal showPT mb ext ss ntitles starts lengths zs
  induction zs with
  | nil => intro idx ci xm; rfl
  | cons z rest ih =>
    intro idx ci xm
    obtain ⟨pt, ms⟩ := z
    by_cases hb : idx < ntitles - 1 ∧ 0 < (lengths[idx]?).getD 0
    · by_cases h1 : mb ∧ ext ∧ 0 < ss
      · simp only [renderLoop, if_pos hb, if_pos h1, title_spec, ih]
      · simp only [renderLoop, if_pos hb, if_neg h1, title_spec, ih]
    · simp only [renderLoop, if_neg hb, title_spec, ih]

/-! ## Claim theorems: phase boundaries -/

/-- C4 counterexample: with a non-empty first phase followed by an empty
second phase there are no two consecutive non-empty phases, yet a
boundary line is drawn (after the first phase, at `x = 1.5`): the
boundary condition of the code checks only that the current phase is
non-empty and not the last, never the next phase. -/
theorem boundary_empty_next_counterexample :
    (render ["P1", "P2"] [[⟨"m1", [PyFloat.finite 1]⟩], [⟨"m2", []⟩]]
        ⟨ColorMode.Color, [], true, false, false, 0, false, none⟩).boundaries = [3/2] ∧
    phase_lengths [[⟨"m1", [PyFloat.finite 1]⟩], [⟨"m2", []⟩]] = [1, 0] := by
  exact ⟨by with_unfolding_all rfl, by decide⟩

/-- C4 (amended): a boundary line is drawn after phase i exactly when i
is not the last phase and phase i has positive length — regardless of
whether the next phase is empty — at `start_x(i) + length(i) - 0.5`
(which equals `start_x(i+1) - 0.5` since `start_x(i+1) = start_x(i) +
length(i)`); a phase of length 0 draws no trailing boundary line and no
title.  The fixed A-B script places its single boundary the same way:
`nA + 0.5 = start_x(A) + length(A) - 0.5`. -/
theorem boundary_lines_amended :
    (∀ (titles : List String) (pm : List (List Measure)) (cfg : GraphConfig),
      (render titles pm cfg).boundaries =
        boundary_spec titles.length (phase_starts (phase_lengths pm)) (phase_lengths pm) 0
          (titles.zip pm) ∧
      (render titles pm cfg).titles =
        title_spec cfg.show_phase_titles (phase_starts (phase_lengths pm)) (phase_lengths pm) 0
          (titles.zip pm)) ∧
    ABGraph.phase_boundary = (1 : ℚ) + (ABGraph.nA : ℚ) - 1/2 := by
  refine ⟨?_, by with_unfolding_all rfl⟩
  intro titles pm cfg
  exact ⟨renderLoop_boundaries (palette cfg) cfg.show_phase_titles cfg.is_multiple_baseline
      cfg.extend_phase_lines cfg.stair_step_length titles.length
      (phase_starts (phase_lengths pm)) (phase_lengths pm) (titles.zip pm) 0 0 (1/2),
    renderLoop_titles (palette cfg) cfg.show_phase_titles cfg.is_multiple_baseline
      cfg.extend_phase_lines cfg.stair_step_length titles.length
      (phase_starts (phase_lengths pm)) (phase_lengths pm) (titles.zip pm) 0 0 (1/2)⟩

/-! ## Running x-extent lemmas -/

/-- The measure loop only ever grows the running x-extent. -/
lemma measuresLoop_xm_le :
    ∀ (pal : List String) (st idx : Nat) (ms : List Measure) (j ci : Nat) (xm : ℚ),
      xm ≤ (measuresLoop pal st idx j ci xm ms).2.2 := by
  intro pal st idx ms
  induction ms with
  | nil => intro j ci xm; exact le_refl xm
  | cons m rest ih =>
    intro j ci xm
    by_cases hm : m.values.isEmpty
    · simp only [measuresLoop, if_pos hm]
      exact ih (j + 1) ci xm
    · simp only [measuresLoop, if_neg hm]
      exact le_trans (le_max_left xm ((st : ℚ) + (m.values.length : ℚ) - 1/2))
        (ih (j + 1) (ci + 1) (max xm ((st : ℚ) + (m.values.length : ℚ) - 1/2)))

/-- Every series the measure loop produces has its last x-coordinate plus
the 0.5 margin (`x_vals[-1] + 0.5 = start_x + len - 0.5`) below the
resulting x-extent. -/
lemma measuresLoop_series_le :
    ∀ (pal : List String) (st idx : Nat) (ms : List Measure) (j ci : Nat) (xm : ℚ)
      (s : PlotSeries), s ∈ (measuresLoop pal st idx j ci xm ms).1 →
      (s.start_x : ℚ) + (s.len : ℚ) - 1/2 ≤ (measuresLoop pal st idx j ci xm ms).2.2 := by
  intro pal st idx ms
  induction ms with
  | nil => intro j ci xm s hs; cases hs
  | cons m rest ih =>
    intro j ci xm s hs
    by_cases hm : m.values.isEmpty
    · simp only [measuresLoop, if_pos hm] at hs ⊢
      exact ih (j + 1) ci xm s hs
    · simp only [measuresLoop, if_neg hm] at hs ⊢
      rcases List.mem_cons.mp hs with rfl | hmem
      · exact le_trans (le_max_right xm ((st : ℚ) + (m.values.length : ℚ) - 1/2))
          (measuresLoop_xm_le pal st idx rest (j + 1) (ci + 1)
            (max xm ((st : ℚ) + (m.values.length : ℚ) - 1/2)))
      · exact ih (j + 1) (ci + 1) (max xm ((st : ℚ) + (m.values.length : ℚ) - 1/2)) s hmem

/-- The phase loop only ever grows the running x-extent. -/
lemma renderLoop_xm_le :
    ∀ (pal : List String) (showPT mb ext : Bool) (ss : ℚ) (ntitles : Nat)
      (starts lengths : List Nat) (zs : List (String × List Measure)) (idx ci : Nat) (xm : ℚ),
      xm ≤ (renderLoop pal showPT mb ext ss ntitles starts lengths idx ci xm zs).plotted_xmax := by
  intro pal showPT mb ext ss ntitles starts lengths zs
  induction zs with
  | nil => intro idx ci xm; exact le_refl xm
  | cons z rest ih =>
    intro idx ci xm
    obtain ⟨pt, ms⟩ := z
    have hm := measuresLoop_xm_le pal ((starts[idx]?).getD 0) idx ms 0 ci xm
    by_cases hb : idx < ntitles - 1 ∧ 0 < (lengths[idx]?).getD 0
    · by_cases h1 : mb ∧ ext ∧ 0 < ss
      · simp only [renderLoop, if_pos hb, if_pos h1]
        refine le_trans hm (le_trans (le_max_left _ _) (ih (idx + 1) _ _))
      · simp only [renderLoop, if_pos hb, if_neg h1]
        exact le_trans hm (ih (idx + 1) _ _)
    · simp only [renderLoop, if_neg hb]
      exact le_trans hm (ih (idx + 1) _ _)

/-- Every plotted series keeps `start_x + len - 0.5` below the final
`plotted_xmax` of the phase loop. -/
lemma renderLoop_series_le :
    ∀ (pal : List String) (showPT mb ext : Bool) (ss : ℚ) (ntitles : Nat)
      (starts lengths : List Nat) (zs : List (String × List Measure)) (idx ci : Nat) (xm : ℚ)
      (s : PlotSeries),
      s ∈ (renderLoop pal showPT mb ext ss ntitles starts lengths idx ci xm zs).series →
      (s.start_x : ℚ) + (s.len : ℚ) - 1/2 ≤
        (renderLoop pal showPT mb ext ss ntitles starts lengths idx ci xm zs).plotted_xmax := by
  intro pal showPT mb ext ss ntitles starts lengths zs
  induction zs with
  | nil => intro idx ci xm s hs; cases hs
  | cons z rest ih =>
    intro idx ci xm s hs
    obtain ⟨pt, ms⟩ := z
    by_cases hb : idx < ntitles - 1 ∧ 0 < (lengths[idx]?).getD 0
    · by_cases h1 : mb ∧ ext ∧ 0 < ss
      · simp only [renderLoop, if_pos hb, if_pos h1] at hs ⊢
        rcases List.mem_append.mp hs with hmem | hmem
        · refine le_trans (measuresLoop_series_le pal ((starts[idx]?).getD 0) idx ms 0 ci xm s hmem)
            (le_trans (le_max_left _ _) (renderLoop_xm_le pal showPT mb ext ss ntitles
              starts lengths rest (idx + 1) _ _))
        · exact ih (idx + 1) _ _ s hmem
      · simp only [renderLoop, if_pos hb, if_neg h1] at hs ⊢
        rcases List.mem_append.mp hs with hmem | hmem
        · refine le_trans (measuresLoop_series_le pal ((starts[idx]?).getD 0) idx ms 0 ci xm s hmem)
            (renderLoop_xm_le pal showPT mb ext ss ntitles starts lengths rest (idx + 1) _ _)
        · exact ih (idx + 1) _ _ s hmem
    · simp only [renderLoop, if_neg hb] at hs ⊢
      rcases List.mem_append.mp hs with hmem | hmem
      · refine le_trans (measuresLoop_series_le pal ((starts[idx]?).getD 0) idx ms 0 ci xm s hmem)
          (renderLoop_xm_le pal showPT mb ext ss ntitles starts lengths rest (idx + 1) _ _)
      · exact ih (idx + 1) _ _ s hmem

/-- Every stair-step segment keeps its right end plus the 0.5 margin
below the final `plotted_xmax` of the phase loop. -/
lemma renderLoop_stairs_le :
    ∀ (pal : List String) (showPT mb ext : Bool) (ss : ℚ) (ntitles : Nat)
      (starts lengths : List Nat) (zs : List (String × List Measure)) (idx ci : Nat) (xm : ℚ)
      (p : ℚ × ℚ),
      p ∈ (renderLoop pal showPT mb ext ss ntitles starts lengths idx ci xm zs).stairs →
      p.2 + 1/2 ≤
        (renderLoop pal showPT mb ext ss ntitles starts lengths idx ci xm zs).plotted_xmax := by
  intro pal showPT mb ext ss ntitles starts lengths zs
  induction zs with
  | nil => intro idx ci xm p hp; cases hp
  | cons z rest ih =>
    intro idx ci xm p hp
    obtain ⟨pt, ms⟩ := z
    by_cases hb : idx < ntitles - 1 ∧ 0 < (lengths[idx]?).getD 0
    · by_cases h1 : mb ∧ ext ∧ 0 < ss
      · simp only [renderLoop, if_pos hb, if_pos h1] at hp ⊢
        rcases List.mem_cons.mp hp with rfl | hmem
        · refine le_trans (le_max_right _ _) (renderLoop_xm_le pal showPT mb ext ss ntitles
            starts lengths rest (idx + 1) _ _)
        · exact ih (idx + 1) _ _ p hmem
      · simp only [renderLoop, if_pos hb, if_neg h1] at hp ⊢
        exact ih (idx + 1) _ _ p hp
    · simp only [renderLoop, if_neg hb] at hp ⊢
      exact ih (idx + 1) _ _ p hp

/-- The x-axis upper limit is never below the running x-extent. -/
lemma xlim_upper_ge :
    ∀ (cfg : GraphConfig) (pxmax : ℚ), pxmax ≤ xlim_upper cfg pxmax := by
  intro cfg pxmax
  unfold xlim_upper
  by_cases hu : cfg.use_max_x
  · simp only [if_pos hu]
    cases cfg.fixed_max_x with
    | some fx => exact le_max_right (fx + 1/2) pxmax
    | none => exact le_max_left pxmax (5/2)
  · simp only [if_neg hu]
    exact le_max_left pxmax (5/2)

/-! ## Claim theorem: axis upper bound -/

/-- C6: the axis upper bound never clips data.  For every input, every
plotted series ends at `start_x + len - 1`, and `start_x + len - 0.5`
(the last point plus the margin) stays below the axis upper limit; every
stair-step extension end plus the margin stays below it as well; and when
a fixed maximum x override is supplied the limit is at least the
override plus the margin — the limit is the larger of the override plus
margin and the natural extent, so real data is never clipped. -/
theorem axis_upper_bound_no_clip :
    ∀ (titles : List String) (pm : List (List Measure)) (cfg : GraphConfig),
      (∀ s : PlotSeries, s ∈ (render titles pm cfg).series →
        (s.start_x : ℚ) + (s.len : ℚ) - 1/2 ≤
          xlim_upper cfg (render titles pm cfg).plotted_xmax) ∧
      (∀ p : ℚ × ℚ, p ∈ (render titles pm cfg).stairs →
        p.2 + 1/2 ≤ xlim_upper cfg (render titles pm cfg).plotted_xmax) ∧
      (∀ fx : ℚ, cfg.use_max_x = true → cfg.fixed_max_x = some fx →
        fx + 1/2 ≤ xlim_upper cfg (render titles pm cfg).plotted_xmax) := by
  intro titles pm cfg
  refine ⟨?_, ?_, ?_⟩
  · intro s hs
    exact le_trans (renderLoop_series_le (palette cfg) cfg.show_phase_titles
      cfg.is_multiple_baseline cfg.extend_phase_lines cfg.stair_step_length titles.length
      (phase_starts (phase_lengths pm)) (phase_lengths pm) (titles.zip pm) 0 0 (1/2) s hs)
      (xlim_upper_ge cfg _)
  · intro p hp
    exact le_trans (renderLoop_stairs_le (palette cfg) cfg.show_phase_titles
      cfg.is_multiple_baseline cfg.extend_phase_lines cfg.stair_step_length titles.length
      (phase_starts (phase_lengths pm)) (phase_lengths pm) (titles.zip pm) 0 0 (1/2) p hp)
      (xlim_upper_ge cfg _)
  · intro fx hu hf
    unfold xlim_upper
    rw [if_pos hu, hf]
    exact le_max_left (fx + 1/2) _

/-- C6 witness: the bound applied on a concrete two-phase render with the
stair-step active and a fixed maximum x of 4: the first plotted series,
the recorded stair segment, and the override are all below the computed
axis limit. -/
theorem axis_upper_bound_no_clip_witness :
    (((⟨"m", 1, 1, "#1f77b4", "o", [PyFloat.finite 1]⟩ : PlotSeries).start_x : ℚ) +
      ((⟨"m", 1, 1, "#1f77b4", "o", [PyFloat.finite 1]⟩ : PlotSeries).len : ℚ) - 1/2 ≤
      xlim_upper ⟨ColorMode.Color, [], true, true, true, 1, true, some 4⟩
        (render ["A", "B"] [[⟨"m", [PyFloat.finite 1]⟩], [⟨"m2", [PyFloat.finite 2]⟩]]
          ⟨ColorMode.Color, [], true, true, true, 1, true, some 4⟩).plotted_xmax) ∧
    (((3 : ℚ)/2, (5 : ℚ)/2).2 + 1/2 ≤
      xlim_upper ⟨ColorMode.Color, [], true, true, true, 1, true, some 4⟩
        (render ["A", "B"] [[⟨"m", [PyFloat.finite 1]⟩], [⟨"m2", [PyFloat.finite 2]⟩]]
          ⟨ColorMode.Color, [], true, true, true, 1, true, some 4⟩).plotted_xmax) ∧
    ((4 : ℚ) + 1/2 ≤
      xlim_upper ⟨ColorMode.Color, [], true, true, true, 1, true, some 4⟩
        (render ["A", "B"] [[⟨"m", [PyFloat.finite 1]⟩], [⟨"m2", [PyFloat.finite 2]⟩]]
          ⟨ColorMode.Color, [], true, true, true, 1, true, some 4⟩).plotted_xmax) :=
  ⟨(axis_upper_bound_no_clip ["A", "B"] [[⟨"m", [PyFloat.finite 1]⟩], [⟨"m2", [PyFloat.finite 2]⟩]]
      ⟨ColorMode.Color, [], true, true, true, 1, true, some 4⟩).1
      ⟨"m", 1, 1, "#1f77b4", "o", [PyFloat.finite 1]⟩ (by with_unfolding_all decide),
   (axis_upper_bound_no_clip ["A", "B"] [[⟨"m", [PyFloat.finite 1]⟩], [⟨"m2", [PyFloat.finite 2]⟩]]
      ⟨ColorMode.Color, [], true, true, true, 1, true, some 4⟩).2.1
      ((3 : ℚ)/2, (5 : ℚ)/2) (by with_unfolding_all decide),
   (axis_upper_bound_no_clip ["A", "B"] [[⟨"m", [PyFloat.finite 1]⟩], [⟨"m2", [PyFloat.finite 2]⟩]]
      ⟨ColorMode.Color, [], true, true, true, 1, true, some 4⟩).2.2 4 rfl rfl⟩

/-! ## Color assignment lemmas -/

/-- `colorsFrom` yields one color per plotted series. -/
lemma colorsFrom_length : ∀ (pal : List String) (n ci : Nat),
    (colorsFrom pal ci n).length = n := by
  intro pal n
  induction n with
  | zero => intro ci; rfl
  | succ k ih => intro ci; simp [colorsFrom, ih]

/-- Splitting a run of cycled colors: the second block starts where the
first block's counter ends. -/
lemma colorsFrom_append : ∀ (pal : List String) (a b ci : Nat),
    colorsFrom pal ci (a + b) = colorsFrom pal ci a ++ colorsFrom pal (ci + a) b := by
  intro pal a
  induction a with
  | zero => intro b ci; simp [colorsFrom]
  | succ k ih =>
    intro b ci
    have hn : k + 1 + b = (k + b) + 1 := by omega
    rw [hn]
    simp only [colorsFrom, List.cons_append]
    rw [ih b (ci + 1)]
    have ha : ci + 1 + k = ci + (k + 1) := by omega
    rw [ha]

/-- The k-th cycled color is `pal[(ci + k) % len pal]`. -/
lemma colorsFrom_getElem : ∀ (pal : List String) (n ci k : Nat), k < n →
    (colorsFrom pal ci n)[k]? = some ((pal[(ci + k) % pal.length]?).getD "") := by
  intro pal n
  induction n with
  | zero => intro ci k h; cases h
  | succ m ih =>
    intro ci k h
    cases k with
    | zero => simp [colorsFrom]
    | succ kk =>
      have hk : kk < m := by omega
      simp only [colorsFrom, List.getElem?_cons_succ]
      rw [ih (ci + 1) kk hk]
      have ha : ci + 1 + kk = ci + (kk + 1) := by omega
      rw [ha]

/-- The measure loop assigns cycled colors starting at the incoming
counter, one per measure with non-empty data, and advances the counter by
exactly that number: measures with empty data do not consume a color. -/
lemma measuresLoop_colors :
    ∀ (pal : List String) (st idx : Nat) (ms : List Measure) (j ci : Nat) (xm : ℚ),
      (measuresLoop pal st idx j ci xm ms).1.map PlotSeries.color =
        colorsFrom pal ci (plotted_count ms) ∧
      (measuresLoop pal st idx j ci xm ms).2.1 = ci + plotted_count ms := by
  intro pal st idx ms
  induction ms with
  | nil => intro j ci xm; exact ⟨rfl, rfl⟩
  | cons m rest ih =>
    intro j ci xm
    by_cases hm : m.values.isEmpty
    · have hc : plotted_count (m :: rest) = plotted_count rest := by
        simp [plotted_count, List.filter_cons, hm]
      simp only [measuresLoop, if_pos hm, hc]
      exact ih (j + 1) ci xm
    · have hc : plotted_count (m :: rest) = plotted_count rest + 1 := by
        simp [plotted_count, List.filter_cons, hm]
      obtain ⟨h1, h2⟩ := ih (j + 1) (ci + 1)
        (max xm ((st : ℚ) + (m.values.length : ℚ) - 1/2))
      constructor
      · simp only [measuresLoop, if_neg hm, List.map_cons, hc]
        rw [h1]
        rfl
      · simp only [measuresLoop, if_neg hm, hc]
        rw [h2]
        omega

/-- The phase loop assigns cycled colors globally, in plot order, across
all phases: the series list's colors are `pal[ci % len]`, `pal[(ci+1) %
len]`, ..., one per plotted measure. -/
lemma renderLoop_colors :
    ∀ (pal : List String) (showPT mb ext : Bool) (ss : ℚ) (ntitles : Nat)
      (starts lengths : List Nat) (zs : List (String × List Measure)) (idx ci : Nat) (xm : ℚ),
      (renderLoop pal showPT mb ext ss ntitles starts lengths idx ci xm zs).series.map
        PlotSeries.color = colorsFrom pal ci (total_plotted zs) := by
  intro pal showPT mb ext ss ntitles starts lengths zs
  induction zs with
  | nil => intro idx ci xm; rfl
  | cons z rest ih =>
    intro idx ci xm
    obtain ⟨pt, ms⟩ := z
    have htot : total_plotted ((pt, ms) :: rest) = plotted_count ms + total_plotted rest := by
      simp [total_plotted]
    obtain ⟨hc, hci⟩ := measuresLoop_colors pal ((starts[idx]?).getD 0) idx ms 0 ci xm
    by_cases hb : idx < ntitles - 1 ∧ 0 < (lengths[idx]?).getD 0
    · by_cases h1 : mb ∧ ext ∧ 0 < ss
      · simp only [renderLoop, if_pos hb, if_pos h1, List.map_append]
        rw [hc, ih (idx + 1) _ _, hci, htot, colorsFrom_append]
      · simp only [renderLoop, if_pos hb, if_neg h1, List.map_append]
        rw [hc, ih (idx + 1) _ _, hci, htot, colorsFrom_append]
    · simp only [renderLoop, if_neg hb, List.map_append]
      rw [hc, ih (idx + 1) _ _, hci, htot, colorsFrom_append]

/-! ## Claim theorems: color assignment -/

/-- C7: global color cycling.  In palette or grayscale mode the k-th
plotted series (in plot order, across all phases) receives
`palette[k % len(palette)]`; there is exactly one plotted series per
measure with non-empty data, so measures with empty data do not consume a
color and the cycling never restarts at a phase change. -/
theorem global_color_cycling :
    ∀ (titles : List String) (pm : List (List Measure)) (cfg : GraphConfig),
      (cfg.color_mode = ColorMode.Color ∨ cfg.color_mode = ColorMode.Grayscale) →
      ((render titles pm cfg).series.map PlotSeries.color =
        colorsFrom (palette cfg) 0 (total_plotted (titles.zip pm))) ∧
      (render titles pm cfg).series.length = total_plotted (titles.zip pm) ∧
      ∀ (k : Nat), k < (render titles pm cfg).series.length →
        ((render titles pm cfg).series.map PlotSeries.color)[k]? =
          some (((palette cfg)[k % (palette cfg).length]?).getD "") := by
  intro titles pm cfg hmode
  have hmap := renderLoop_colors (palette cfg) cfg.show_phase_titles cfg.is_multiple_baseline
    cfg.extend_phase_lines cfg.stair_step_length titles.length
    (phase_starts (phase_lengths pm)) (phase_lengths pm) (titles.zip pm) 0 0 (1/2)
  have hlen : (render titles pm cfg).series.length = total_plotted (titles.zip pm) := by
    have hl := congrArg List.length hmap
    rw [List.length_map, colorsFrom_length] at hl
    exact hl
  refine ⟨hmap, hlen, ?_⟩
  intro k hk
  have hk2 : k < total_plotted (titles.zip pm) := hlen ▸ hk
  rw [show ((render titles pm cfg).series.map PlotSeries.color) =
    colorsFrom (palette cfg) 0 (total_plotted (titles.zip pm)) from hmap,
    colorsFrom_getElem (palette cfg) _ 0 k hk2]
  simp

/-- C7 witness: with one empty measure between two plotted ones, the
second plotted series (global index 1) gets the second palette color. -/
theorem global_color_cycling_witness :
    ((render ["P1", "P2"] [[⟨"a", [PyFloat.finite 1]⟩, ⟨"b", []⟩], [⟨"c", [PyFloat.finite 2]⟩]]
        ⟨ColorMode.Color, [], true, false, false, 0, false, none⟩).series.map
        PlotSeries.color)[1]? =
      some (((palette ⟨ColorMode.Color, [], true, false, false, 0, false, none⟩)[1 %
        (palette ⟨ColorMode.Color, [], true, false, false, 0, false, none⟩).length]?).getD "") :=
  (global_color_cycling ["P1", "P2"]
    [[⟨"a", [PyFloat.finite 1]⟩, ⟨"b", []⟩], [⟨"c", [PyFloat.finite 2]⟩]]
    ⟨ColorMode.Color, [], true, false, false, 0, false, none⟩ (Or.inl rfl)).2.2 1
    (by with_unfolding_all decide)

/-- C5 counterexample: in custom mode with one supplied color and two
plotted measures, the second measure is colored with the custom color
again (modulo wrap-around), not with a default-palette color — the
claimed fallback to the default palette for unmatched measures does not
happen. -/
theorem custom_color_fallback_counterexample :
    (render ["P"] [[⟨"m1", [PyFloat.finite 1]⟩, ⟨"m2", [PyFloat.finite 2]⟩]]
        ⟨ColorMode.Custom, ["#123456"], true, false, false, 0, false, none⟩).series.map
        PlotSeries.color = ["#123456", "#123456"] ∧
    ¬ "#123456" ∈ default_colors := by
  exact ⟨by with_unfolding_all rfl, by decide⟩

/-- C5 (amended): in custom mode with a non-empty custom list the k-th
plotted measure (in global order) receives
`custom_colors[k % len(custom_colors)]`: when the custom list is shorter
than the number of plotted measures the custom colors are reused
cyclically (no crash, but no default-palette fallback); only an entirely
empty custom list falls back to the default palette. -/
theorem custom_color_modulo :
    ∀ (titles : List String) (pm : List (List Measure)) (cfg : GraphConfig),
      cfg.color_mode = ColorMode.Custom → cfg.custom_colors ≠ [] →
      ∀ (k : Nat), k < (render titles pm cfg).series.length →
        ((render titles pm cfg).series.map PlotSeries.color)[k]? =
          some ((cfg.custom_colors[k % cfg.custom_colors.length]?).getD "") := by
  intro titles pm cfg hmode hne k hk
  have hpal : palette cfg = cfg.custom_colors := by
    simp [palette, hmode, hne]
  have hmap := renderLoop_colors (palette cfg) cfg.show_phase_titles cfg.is_multiple_baseline
    cfg.extend_phase_lines cfg.stair_step_length titles.length
    (phase_starts (phase_lengths pm)) (phase_lengths pm) (titles.zip pm) 0 0 (1/2)
  have hlen : (render titles pm cfg).series.length = total_plotted (titles.zip pm) := by
    have hl := congrArg List.length hmap
    rw [List.length_map, colorsFrom_length] at hl
    exact hl
  have hk2 : k < total_plotted (titles.zip pm) := hlen ▸ hk
  rw [show ((render titles pm cfg).series.map PlotSeries.color) =
    colorsFrom (palette cfg) 0 (total_plotted (titles.zip pm)) from hmap,
    colorsFrom_getElem (palette cfg) _ 0 k hk2, hpal]
  simp

/-- C5 witness for the amended statement: the modulo assignment applied
at the counterexample input, second plotted measure. -/
theorem custom_color_modulo_witness :
    ((render ["P"] [[⟨"m1", [PyFloat.finite 1]⟩, ⟨"m2", [PyFloat.finite 2]⟩]]
        ⟨ColorMode.Custom, ["#123456"], true, false, false, 0, false, none⟩).series.map
        PlotSeries.color)[1]? =
      some (((["#123456"] : List String)[1 % (["#123456"] : List String).length]?).getD "") :=
  custom_color_modulo ["P"] [[⟨"m1", [PyFloat.finite 1]⟩, ⟨"m2", [PyFloat.finite 2]⟩]]
    ⟨ColorMode.Custom, ["#123456"], true, false, false, 0, false, none⟩ rfl
    (by decide) 1 (by with_unfolding_all decide)

end SCD
